import Mathlib

/-!
Shallow embedding of `src/movie_pipeline_group.py` (an Apache Beam ETL
pipeline over two tab-separated IMDb datasets).

Python values flowing through the pipeline are modelled by `Value`
(text, bool, int, float, None); Python floats are modelled by `Rat`
(the spec's numeric claims do not depend on IEEE rounding).  A Python
dict record is modelled as a total function `String → Option Value`
where `none` means the key is absent from the dict and `some Value.vNone`
means the key is present with value `None`.  Operations that can raise
an uncaught Python exception (KeyError, TypeError) return `Option`,
with `none` standing for the raised exception.
-/

set_option maxHeartbeats 1000000

namespace MoviePipeline

/-- A Python runtime value as it occurs in this pipeline: str, bool, int,
float (modelled as a rational) or None. -/
inductive Value : Type where
  | vStr (s : String)
  | vBool (b : Bool)
  | vInt (n : Int)
  | vFloat (q : Rat)
  | vNone
deriving DecidableEq, Repr

/-- A Python dict with string keys: `none` = key absent, `some v` = key
present with value `v` (which may itself be Python `None` = `vNone`). -/
def Record : Type := String → Option Value

/-- Dict item assignment `r[c] = w` (the key need not be fresh). -/
def update (r : Record) (c : String) (w : Value) : Record :=
  fun k => if k = c then some w else r k

/-- Python truthiness of a `Value`: empty string, `False`, `0`, `0.0` and
`None` are falsy, everything else is truthy. -/
def truthy : Value → Bool
  | Value.vStr s => s ≠ ""
  | Value.vBool b => b
  | Value.vInt n => n ≠ 0
  | Value.vFloat q => q ≠ 0
  | Value.vNone => false

/-- Python comparison `v >= q` against a float literal: defined (`some`)
for numeric values (bools are numeric in Python), a `TypeError` (`none`)
for strings and `None`. -/
def geNum : Value → Rat → Option Bool
  | Value.vInt n, q => some (decide (q ≤ (n : Rat)))
  | Value.vFloat p, q => some (decide (q ≤ p))
  | Value.vBool b, q => some (decide (q ≤ (if b then (1 : Rat) else 0)))
  | Value.vStr _, _ => none
  | Value.vNone, _ => none

/-! ## Record Parser (`ParseCsv`, src lines 11-20)

`ParseCsv.process` runs `csv.DictReader(string.splitlines(),
fieldnames=self.col_names, delimiter='\t')` and yields each row.  The
csv excel dialect with a tab delimiter is modelled by the state machine
`csvAux` (quotechar `"`; doublequote; non-strict).  Quoted fields that
continue across several physical lines are outside the model: every
theorem below restricts to single physical lines, with no
line-boundary character in the sense of `str.splitlines()`. -/

inductive CsvState : Type where
  | startField
  | inField
  | inQuoted
  | quoteInQuoted
deriving DecidableEq

/-- The csv reader's per-line state machine (excel dialect, tab
delimiter, quote character `"`, doublequote on, non-strict), producing
the list of decoded fields of one physical line. -/
def csvAux : CsvState → List Char → List Char → List (List Char)
  | _, acc, [] => [acc.reverse]
  | CsvState.startField, acc, c :: cs =>
      if c = '"' then csvAux CsvState.inQuoted acc cs
      else if c = '\t' then acc.reverse :: csvAux CsvState.startField [] cs
      else csvAux CsvState.inField (c :: acc) cs
  | CsvState.inField, acc, c :: cs =>
      if c = '\t' then acc.reverse :: csvAux CsvState.startField [] cs
      else csvAux CsvState.inField (c :: acc) cs
  | CsvState.inQuoted, acc, c :: cs =>
      if c = '"' then csvAux CsvState.quoteInQuoted acc cs
      else csvAux CsvState.inQuoted (c :: acc) cs
  | CsvState.quoteInQuoted, acc, c :: cs =>
      if c = '"' then csvAux CsvState.inQuoted ('"' :: acc) cs
      else if c = '\t' then acc.reverse :: csvAux CsvState.startField [] cs
      else csvAux CsvState.inField (c :: acc) cs

/-- Decoded fields of one csv line. -/
def csvFields (s : String) : List String :=
  (csvAux CsvState.startField [] s.data).map (fun cs => String.mk cs)

/-- Plain split of a character list on the tab character (accumulator of
the current field held reversed). -/
def splitTabAux : List Char → List Char → List (List Char)
  | [], acc => [acc.reverse]
  | c :: cs, acc =>
      if c = '\t' then acc.reverse :: splitTabAux cs []
      else splitTabAux cs (c :: acc)

/-- Number of tab-delimited fields of a raw line (what the spec calls
the line's field count). -/
def countTabFields (s : String) : Nat :=
  (splitTabAux s.data []).length

/-- Join a list of fields with the tab delimiter. -/
def joinTab : List (List Char) → List Char
  | [] => []
  | [f] => f
  | f :: fs => f ++ '\t' :: joinTab fs

/-- Python dict construction from a key/value pair list: a later pair
with the same key overrides an earlier one. -/
def dictOfPairs : List (String × Value) → Record
  | [] => fun _ => none
  | (k₀, v₀) :: ps => fun k =>
      match dictOfPairs ps k with
      | some v => some v
      | none => if k = k₀ then some v₀ else none

/-- One `csv.DictReader` row: `dict(zip(fieldnames, row))`; when the row
is shorter than `fieldnames` the remaining keys get `restval = None`;
when it is longer the overflow fields go under the non-string `restkey`
key `None`, which has no counterpart in a `String`-keyed record and is
dropped from the model (no claim depends on it). -/
def dictReaderRow (cols : List String) (fields : List String) : Record :=
  dictOfPairs
    ((cols.zip (fields.map Value.vStr)) ++
      (cols.drop fields.length).map (fun c => (c, Value.vNone)))

/-- A character `str.splitlines()` treats as a line boundary: LF, CR,
vertical tab, form feed, the separator controls x1c-x1e, NEL x85, and
the unicode line/paragraph separators u2028/u2029. -/
def isLineBreak (c : Char) : Bool :=
  c = '\n' || c = '\r' || c = '\x0b' || c = '\x0c' ||
    c = '\x1c' || c = '\x1d' || c = '\x1e' ||
    c = '\x85' || c = '\u2028' || c = '\u2029'

/-- Split a character list at line boundaries, as `str.splitlines()`
does: the `afterCr` flag records that the previous character was a
`\r`, so that the `\n` of a `\r\n` pair is consumed as part of the
same boundary; a trailing boundary produces no empty final line (so
the empty input has no lines). -/
def splitLinesAux : Bool → List Char → List Char → List (List Char)
  | _, [], acc => if acc.isEmpty then [] else [acc.reverse]
  | afterCr, c :: cs, acc =>
      if afterCr ∧ c = '\n' then splitLinesAux false cs acc
      else if c = '\r' then acc.reverse :: splitLinesAux true cs []
      else if isLineBreak c then acc.reverse :: splitLinesAux false cs []
      else splitLinesAux false cs (c :: acc)

/-- `str.splitlines()`: the empty string yields no line, a string free
of line-boundary characters is a single line, and each boundary
(including a bare `\r` and the pair `\r\n`) separates lines with no
empty line for a trailing terminator. -/
def pySplitlines (s : String) : List String :=
  (splitLinesAux false s.data []).map (fun cs => String.mk cs)

/-- `ParseCsv.process`: split the input string into physical lines, run
the csv reader, and yield one record per non-blank row (the csv reader
silently skips blank lines, yielding no row for them). -/
def parseCsvProcess (cols : List String) (s : String) : List Record :=
  (pySplitlines s).filterMap
    (fun line => if line = "" then none else some (dictReaderRow cols (csvFields line)))

/-- The raw text stored in a parsed record's field (parser-stage values
are strings; anything else reads back as the empty string). -/
def getRawStr : Option Value → String
  | some (Value.vStr s) => s
  | _ => ""

/-- Re-joining a parsed record's field values with the tab delimiter in
schema order (the round-trip direction of spec §8). -/
def rejoinRecord (cols : List String) (r : Record) : String :=
  String.mk (joinTab (cols.map (fun c => (getRawStr (r c)).data)))

/-- First record of a DoFn output, used to name parse/clean results in
closed statements. -/
def extractFirst : List Record → Record
  | r :: _ => r
  | [] => fun _ => none

/-- First record of an optional DoFn output. -/
def extractFirstO : Option (List Record) → Record
  | some l => extractFirst l
  | none => fun _ => none

/-! ## Field Normalizer (`CleanData`, src lines 23-72)

`CleanData.process` replaces the sentinel `\N` by `None`, coerces the
configured boolean columns (`'0'` ↦ `False`, everything else ↦ `True`),
then runs `_parse_numeric` for the int columns and for the float
columns.  `_parse_numeric` skips falsy cell values (setting them to
`None`), converts the rest with Python `int()` / `float()`, and turns a
`ValueError` into `None`; a `TypeError` (e.g. `int(None)`) would not be
caught, and an unknown type tag raises `AttributeError` — both are
modelled as the failing `none`. -/

/-- An exception raised by Python numeric conversion: `int('x')` raises
`ValueError` (caught by `_parse_numeric`), `int(None)` raises
`TypeError` (not caught). -/
inductive PyErr : Type where
  | valueError
  | typeError
deriving DecidableEq

/-- Decimal value of a digit list. -/
def digitsToNat (ds : List Char) : Nat :=
  ds.foldl (fun a c => 10 * a + (c.toNat - 48)) 0

/-- A non-empty all-digit character list, as a number. -/
def digitsValN (ds : List Char) : Option Nat :=
  if ds ≠ [] ∧ ds.all Char.isDigit then some (digitsToNat ds) else none

/-- Strip one optional leading sign, returning (negative?, rest). -/
def signSplit : List Char → (Bool × List Char)
  | '+' :: ds => (false, ds)
  | '-' :: ds => (true, ds)
  | ds => (false, ds)

/-- An ASCII whitespace character (the whitespace Python `int()` /
`float()` strip; non-ASCII unicode spaces are outside the model). -/
def isPySpace (c : Char) : Bool :=
  c = ' ' || c = '\t' || c = '\n' || c = '\r' || c = '\x0b' || c = '\x0c'

/-- Strip surrounding whitespace from a character list. -/
def stripChars (cs : List Char) : List Char :=
  ((cs.dropWhile isPySpace).reverse.dropWhile isPySpace).reverse

/-- Python `int(str)`: strip surrounding whitespace, optional sign,
then a non-empty run of decimal digits; anything else raises
`ValueError` (`none`).  (Python's underscore digit grouping and
non-ASCII digits are outside the model.) -/
def intParse (s : String) : Option Int :=
  match signSplit (stripChars s.data) with
  | (neg, ds) => (digitsValN ds).map (fun n => if neg then -(n : Int) else (n : Int))

/-- Mantissa of a float literal — `digits`, `digits.`, `digits.digits`
or `.digits` — as (significand, number of fraction digits). -/
def mantVal (mant : List Char) : Option (Nat × Nat) :=
  match mant.span (fun c => decide (c ≠ '.')) with
  | (ip, []) => (digitsValN ip).map (fun n => (n, 0))
  | (ip, _ :: fp) =>
      if (ip ++ fp) ≠ [] ∧ ip.all Char.isDigit ∧ fp.all Char.isDigit then
        some (digitsToNat (ip ++ fp), fp.length)
      else none

/-- Exponent of a float literal: optional sign then non-empty digits. -/
def expVal (ds : List Char) : Option Int :=
  match signSplit ds with
  | (neg, ds') => (digitsValN ds').map (fun n => if neg then -(n : Int) else (n : Int))

/-- Unsigned body of a float literal, as (significand, fraction
length, decimal exponent). -/
def floatBody (ds : List Char) : Option (Nat × Nat × Int) :=
  match ds.span (fun c => decide (c ≠ 'e' ∧ c ≠ 'E')) with
  | (mant, []) => (mantVal mant).map (fun m => (m.1, m.2, (0 : Int)))
  | (mant, _ :: ex) => do
      let m ← mantVal mant
      let e ← expVal ex
      some (m.1, m.2, e)

/-- `num * 10 ^ e / 10 ^ scale` as a rational, written with a single
`Rat.divInt` so that concrete instances evaluate by kernel reduction. -/
def ratOfSci (num : Int) (scale : Nat) (e : Int) : Rat :=
  if 0 ≤ e then Rat.divInt (num * (10 : Int) ^ e.toNat) ((10 : Int) ^ scale)
  else Rat.divInt num ((10 : Int) ^ (scale + (-e).toNat))

/-- Python `float(str)`: strip surrounding whitespace, optional sign,
decimal mantissa with optional fraction and exponent; anything else
raises `ValueError` (`none`).  (The `inf`/`nan` spellings, which no
claim touches, are outside the model and read as failures.) -/
def floatParse (s : String) : Option Rat :=
  match signSplit (stripChars s.data) with
  | (neg, ds) =>
      (floatBody ds).map
        (fun m => ratOfSci (if neg then -(m.1 : Int) else (m.1 : Int)) m.2.1 m.2.2)

/-- Truncation of a rational toward zero, as Python `int(float)`. -/
def ratTrunc (q : Rat) : Int :=
  if q < 0 then -(Rat.floor (-q)) else Rat.floor q

/-- Python `int(v)` on a pipeline value. -/
def pyInt : Value → Except PyErr Value
  | Value.vStr s =>
      match intParse s with
      | some n => Except.ok (Value.vInt n)
      | none => Except.error PyErr.valueError
  | Value.vBool b => Except.ok (Value.vInt (if b then 1 else 0))
  | Value.vInt n => Except.ok (Value.vInt n)
  | Value.vFloat q => Except.ok (Value.vInt (ratTrunc q))
  | Value.vNone => Except.error PyErr.typeError

/-- Python `float(v)` on a pipeline value. -/
def pyFloat : Value → Except PyErr Value
  | Value.vStr s =>
      match floatParse s with
      | some q => Except.ok (Value.vFloat q)
      | none => Except.error PyErr.valueError
  | Value.vBool b => Except.ok (Value.vFloat (if b then 1 else 0))
  | Value.vInt n => Except.ok (Value.vFloat (n : Rat))
  | Value.vFloat q => Except.ok (Value.vFloat q)
  | Value.vNone => Except.error PyErr.typeError

/-- Sentinel replacement (src lines 57-60): the literal two-character
string backslash-N becomes `None`; every other value is untouched. -/
def sentinelValue (v : Value) : Value :=
  if v = Value.vStr "\\N" then Value.vNone else v

/-- The `for k in record` sentinel loop, applied to every present key. -/
def sentPass (r : Record) : Record :=
  fun k => (r k).map sentinelValue

/-- Boolean coercion (src lines 62-66): `'0'` ↦ `False`, any other
value — including `None` — ↦ `True`. -/
def boolCoerce (v : Value) : Value :=
  if v = Value.vStr "0" then Value.vBool false else Value.vBool true

/-- One iteration of the boolean-column loop; a missing column would
raise `KeyError` (`none`). -/
def boolPassStep (r : Record) (c : String) : Option Record :=
  match r c with
  | none => none
  | some v => some (update r c (boolCoerce v))

/-- One iteration of the `_parse_numeric` loop: falsy cell ↦ `None`,
otherwise convert, catching only `ValueError`; a `TypeError` or a
missing column propagates (`none`). -/
def numPassStep (func : Value → Except PyErr Value) (r : Record) (c : String) :
    Option Record :=
  match r c with
  | none => none
  | some v =>
      if truthy v then
        match func v with
        | Except.ok w => some (update r c w)
        | Except.error PyErr.valueError => some (update r c Value.vNone)
        | Except.error PyErr.typeError => none
      else some (update r c Value.vNone)

/-- The `_parse_numeric` column loop for one conversion function. -/
def parseNumericCols (func : Value → Except PyErr Value) (cols : List String)
    (r : Record) : Option Record :=
  cols.foldlM (numPassStep func) r

/-- `CleanData` configuration: the three column lists of the
constructor (src lines 26-35). -/
structure CleanCfg : Type where
  boolCols : List String := []
  intCols : List String := []
  floatCols : List String := []

/-- `CleanData._parse_numeric` (src lines 37-54), with its type-tag
dispatch; an unknown tag raises `AttributeError` (`none`). -/
def parseNumericD (cfg : CleanCfg) (ttype : String) (r : Record) : Option Record :=
  if ttype = "float" then parseNumericCols pyFloat cfg.floatCols r
  else if ttype = "int" then parseNumericCols pyInt cfg.intCols r
  else none

/-- `CleanData.process` (src lines 56-72): sentinel pass, boolean
columns, then `_parse_numeric` for `'int'` and for `'float'`; yields
the single cleaned record, or `none` for an uncaught exception. -/
def cleanProcess (cfg : CleanCfg) (r : Record) : Option (List Record) := do
  let r₂ ← cfg.boolCols.foldlM boolPassStep (sentPass r)
  let r₃ ← parseNumericD cfg "int" r₂
  let r₄ ← parseNumericD cfg "float" r₃
  pure [r₄]

/-! ## Predicate Filters (`FilterRatingData` / `FilterBasicData`,
src lines 75-88)

Both DoFns are a single short-circuiting `if`; each yields the record,
or nothing, or raises (`none`) when a comparison hits a non-numeric
value (`TypeError`) or a column is missing (`KeyError`). -/

/-- `FilterRatingData.process`: yield the record iff
`record['averageRating'] and record['averageRating'] >= 5.0`. -/
def filterRatingProcess (r : Record) : Option (List Record) :=
  match r "averageRating" with
  | none => none
  | some v =>
      if truthy v then
        match geNum v 5 with
        | none => none
        | some b => some (if b then [r] else [])
      else some []

/-- `FilterBasicData.process`: yield the record iff
`record['titleType'] == 'movie' and not record['isAdult'] and
record['startYear'] and record['startYear'] >= 1970`, with Python's
left-to-right short-circuit evaluation. -/
def filterBasicProcess (r : Record) : Option (List Record) :=
  match r "titleType" with
  | none => none
  | some t =>
      if t = Value.vStr "movie" then
        match r "isAdult" with
        | none => none
        | some a =>
            if truthy a then some []
            else
              match r "startYear" with
              | none => none
              | some s =>
                  if truthy s then
                    match geNum s 1970 with
                    | none => none
                    | some b => some (if b then [r] else [])
                  else some []
      else some []

/-! ## Key-Based Joiner and Merger (src lines 99-101, 144-158)

`beam.CoGroupByKey` over the two keyed collections produces, per
distinct key, the pair of per-side match lists; `join_ratings` expands
each group with `itertools.product`; the `mergedicts` lambda flattens a
pair with `{**dd[0], **dd[1]}`.  The transforms are generic in the key
and element types, as in Beam; key order is modelled as order of last
appearance (Beam leaves it unspecified). -/

/-- `itertools.product` of two lists: all pairs, left factor outermost. -/
def listProd {α β : Type} (as : List α) (bs : List β) : List (α × β) :=
  as.flatMap (fun a => bs.map (fun b => (a, b)))

/-- The records of one side carrying the given key, in stream order. -/
def valuesFor {K A : Type} [DecidableEq K] (xs : List (K × A)) (k : K) : List A :=
  (xs.filter (fun p => decide (p.1 = k))).map Prod.snd

/-- The distinct keys appearing on either side. -/
def cgbkKeys {K A B : Type} [DecidableEq K] (ms : List (K × A)) (rs : List (K × B)) :
    List K :=
  (ms.map Prod.fst ++ rs.map Prod.fst).dedup

/-- `beam.CoGroupByKey`: one group per distinct key, holding both
sides' matching elements. -/
def coGroupByKey {K A B : Type} [DecidableEq K] (ms : List (K × A)) (rs : List (K × B)) :
    List (K × (List A × List B)) :=
  (cgbkKeys ms rs).map (fun k => (k, (valuesFor ms k, valuesFor rs k)))

/-- `join_ratings` (src lines 99-101):
`itertools.product(v[1]['movie_keys'], v[1]['rating_keys'])`. -/
def joinRatings {K A B : Type} (v : K × (List A × List B)) : List (A × B) :=
  listProd v.2.1 v.2.2

/-- The joined stream: `CoGroupByKey` then `FlatMap(join_ratings)`. -/
def joinedPairs {K A B : Type} [DecidableEq K] (ms : List (K × A)) (rs : List (K × B)) :
    List (A × B) :=
  (coGroupByKey ms rs).flatMap joinRatings

/-- The keying lambda `lambda r: (r['tconst'], r)` (src lines 145, 149);
a record without `tconst` would raise `KeyError`. -/
def keyByTconst (r : Record) : Option (Value × Record) :=
  (r "tconst").map (fun v => (v, r))

/-- The `mergedicts` lambda (src line 157): `{**dd[0], **dd[1]}` — keys
of both records, the second record's value winning on a shared key. -/
def mergeRecords (a b : Record) : Record :=
  fun k => match b k with
  | some v => some v
  | none => a k

/-! ## Pipeline schemas (src lines 124-127) -/

/-- Column names of the title.basics dataset. -/
def columns_title_basic : List String :=
  ["tconst", "titleType", "primaryTitle", "originalTitle",
   "isAdult", "startYear", "endYear", "runtimeMinutes", "genres"]

/-- Column names of the title.ratings dataset. -/
def columns_ratings : List String :=
  ["tconst", "averageRating", "numVotes"]

/-! ## Helper lemmas: per-column folds -/

@[simp]
theorem update_get_self (r : Record) (c : String) (w : Value) :
    update r c w c = some w := by
  simp [update]

theorem update_get_ne (r : Record) (c : String) (w : Value) (k : String) (hk : k ≠ c) :
    update r c w k = r k := by
  simp [update, hk]

theorem update_self (r : Record) (c : String) (w : Value) (h : r c = some w) :
    update r c w = r := by
  funext k
  by_cases hk : k = c
  · subst hk; simp [update, h.symm]
  · simp [update, hk]

/-- A column step in the normalizer's shape: look the column up
(`KeyError` when absent), apply a per-value action `g`, store the
result (`none` from `g` = an uncaught exception). -/
def stepIsLookupMap (g : Value → Option Value) (step : Record → String → Option Record) :
    Prop :=
  ∀ r c, step r c = (r c).bind (fun v => (g v).map (update r c))

/-- Per-value action of the boolean-column loop. -/
def gBool (v : Value) : Option Value :=
  some (boolCoerce v)

theorem boolPassStep_shape : stepIsLookupMap gBool boolPassStep := by
  intro r c
  unfold boolPassStep gBool
  cases r c <;> simp

/-- Per-value action of a `_parse_numeric` loop iteration. -/
def gNum (func : Value → Except PyErr Value) (v : Value) : Option Value :=
  if truthy v then
    match func v with
    | Except.ok w => some w
    | Except.error PyErr.valueError => some Value.vNone
    | Except.error PyErr.typeError => none
  else some Value.vNone

theorem numPassStep_shape (func : Value → Except PyErr Value) :
    stepIsLookupMap (gNum func) (numPassStep func) := by
  intro r c
  unfold numPassStep gNum
  cases r c with
  | none => rfl
  | some v =>
      by_cases ht : truthy v
      · cases hf : func v with
        | ok w => simp [ht, hf]
        | error e => cases e <;> simp [ht, hf]
      · simp [ht]

/-- A successful column fold leaves unlisted keys untouched. -/
theorem foldStep_pres {g : Value → Option Value} {step : Record → String → Option Record}
    (hstep : stepIsLookupMap g step) :
    ∀ (cols : List String) (r r' : Record), cols.foldlM step r = some r' →
      ∀ k, k ∉ cols → r' k = r k := by
  intro cols
  induction cols with
  | nil =>
      intro r r' h k _
      simp only [List.foldlM_nil] at h
      cases h; rfl
  | cons c₀ cs ih =>
      intro r r' h k hk
      simp only [List.foldlM_cons] at h
      rw [hstep r c₀] at h
      cases hr : r c₀ with
      | none => rw [hr] at h; simp at h
      | some v₀ =>
          rw [hr] at h
          simp only [Option.some_bind] at h
          cases hg : g v₀ with
          | none => rw [hg] at h; simp at h
          | some w₀ =>
              rw [hg] at h
              simp only [Option.map_some', Option.some_bind] at h
              have hk₀ : k ≠ c₀ := fun hkc => hk (hkc ▸ List.mem_cons_self c₀ cs)
              have hks : k ∉ cs := fun hkc => hk (List.mem_cons_of_mem _ hkc)
              rw [ih (update r c₀ w₀) r' h k hks, update_get_ne _ _ _ _ hk₀]

/-- A successful column fold over duplicate-free columns: each listed
column was present, its action succeeded, and the result holds the
action's output. -/
theorem foldStep_main {g : Value → Option Value} {step : Record → String → Option Record}
    (hstep : stepIsLookupMap g step) :
    ∀ (cols : List String), cols.Nodup → ∀ (r r' : Record),
      cols.foldlM step r = some r' →
      ∀ c ∈ cols, ∃ v w, r c = some v ∧ g v = some w ∧ r' c = some w := by
  intro cols
  induction cols with
  | nil => intro _ r r' _ c hc; cases hc
  | cons c₀ cs ih =>
      intro hn r r' h c hc
      simp only [List.foldlM_cons] at h
      rw [hstep r c₀] at h
      cases hr : r c₀ with
      | none => rw [hr] at h; simp at h
      | some v₀ =>
          rw [hr] at h
          simp only [Option.some_bind] at h
          cases hg : g v₀ with
          | none => rw [hg] at h; simp at h
          | some w₀ =>
              rw [hg] at h
              simp only [Option.map_some', Option.some_bind] at h
              have hn' : cs.Nodup := (List.nodup_cons.mp hn).2
              have hc₀ : c₀ ∉ cs := (List.nodup_cons.mp hn).1
              rcases List.mem_cons.mp hc with rfl | hcs
              · refine ⟨v₀, w₀, hr, hg, ?_⟩
                rw [foldStep_pres hstep cs _ r' h c hc₀, update_get_self]
              · obtain ⟨v, w, hv, hgw, hr'⟩ := ih hn' _ r' h c hcs
                have hne : c ≠ c₀ := fun hcc => hc₀ (hcc ▸ hcs)
                rw [update_get_ne _ _ _ _ hne] at hv
                exact ⟨v, w, hv, hgw, hr'⟩

/-- A column fold fixes a record on which every listed column's action
reproduces the stored value. -/
theorem foldStep_fix {g : Value → Option Value} {step : Record → String → Option Record}
    (hstep : stepIsLookupMap g step) :
    ∀ (cols : List String) (r : Record),
      (∀ c ∈ cols, ∃ v, r c = some v ∧ g v = some v) →
      cols.foldlM step r = some r := by
  intro cols
  induction cols with
  | nil => intro r _; simp
  | cons c₀ cs ih =>
      intro r hfix
      obtain ⟨v₀, hv₀, hg₀⟩ := hfix c₀ (List.mem_cons_self c₀ cs)
      simp only [List.foldlM_cons]
      rw [hstep r c₀, hv₀]
      simp only [Option.some_bind]
      rw [hg₀]
      simp only [Option.map_some', Option.some_bind]
      rw [update_self r c₀ v₀ hv₀]
      exact ih r (fun c hc => hfix c (List.mem_cons_of_mem _ hc))

/-! ## Helper lemmas: `cleanProcess` structure -/

theorem cleanProcess_eq (cfg : CleanCfg) (r : Record) :
    cleanProcess cfg r =
      (cfg.boolCols.foldlM boolPassStep (sentPass r)).bind (fun r₂ =>
        (parseNumericCols pyInt cfg.intCols r₂).bind (fun r₃ =>
          (parseNumericCols pyFloat cfg.floatCols r₃).bind (fun r₄ => some [r₄]))) :=
  rfl

theorem cleanProcess_some (cfg : CleanCfg) (r r' : Record)
    (h : cleanProcess cfg r = some [r']) :
    ∃ r₂ r₃, cfg.boolCols.foldlM boolPassStep (sentPass r) = some r₂ ∧
      parseNumericCols pyInt cfg.intCols r₂ = some r₃ ∧
      parseNumericCols pyFloat cfg.floatCols r₃ = some r' := by
  rw [cleanProcess_eq] at h
  simp only [Option.bind_eq_some] at h
  obtain ⟨r₂, h₂, r₃, h₃, r₄, h₄, hr₄⟩ := h
  obtain ⟨rfl⟩ : r₄ = r' := by
    have := Option.some.inj hr₄
    exact (List.cons.inj this).1
  exact ⟨r₂, r₃, h₂, h₃, h₄⟩

theorem cleanProcess_intro (cfg : CleanCfg) (r r₂ r₃ r₄ : Record)
    (h₂ : cfg.boolCols.foldlM boolPassStep (sentPass r) = some r₂)
    (h₃ : parseNumericCols pyInt cfg.intCols r₂ = some r₃)
    (h₄ : parseNumericCols pyFloat cfg.floatCols r₃ = some r₄) :
    cleanProcess cfg r = some [r₄] := by
  rw [cleanProcess_eq, h₂]
  simp only [Option.some_bind]
  rw [h₃]
  simp only [Option.some_bind]
  rw [h₄]
  simp only [Option.some_bind]

/-! ## Helper lemmas: values under normalization -/

theorem sentinelValue_idem (v : Value) :
    sentinelValue (sentinelValue v) = sentinelValue v := by
  unfold sentinelValue
  split
  · simp
  · simp [*]

theorem sentPass_get (r : Record) (k : String) :
    sentPass r k = (r k).map sentinelValue := rfl

theorem map_sent_idem (x : Option Value) :
    (x.map sentinelValue).map sentinelValue = x.map sentinelValue := by
  cases x <;> simp [sentinelValue_idem]

/-- The value `_parse_numeric` leaves in a processed column, as a
function of the value found there. -/
def numClean (func : Value → Except PyErr Value) (v : Value) : Value :=
  if truthy v then
    match func v with
    | Except.ok w => w
    | Except.error _ => Value.vNone
  else Value.vNone

theorem gNum_some (func : Value → Except PyErr Value) (v : Value)
    (hfv : truthy v = true → func v ≠ Except.error PyErr.typeError) :
    gNum func v = some (numClean func v) := by
  unfold gNum numClean
  by_cases ht : truthy v
  · simp only [ht, if_true]
    cases hf : func v with
    | ok w => simp
    | error e =>
        cases e with
        | valueError => simp
        | typeError => exact absurd hf (hfv ht)
  · simp [ht]

theorem pyInt_not_typeError (v : Value) (ht : truthy v = true) :
    pyInt v ≠ Except.error PyErr.typeError := by
  cases v with
  | vStr s => unfold pyInt; cases hp : intParse s <;> simp [hp]
  | vBool b => simp [pyInt]
  | vInt n => simp [pyInt]
  | vFloat q => simp [pyInt]
  | vNone => simp [truthy] at ht

theorem pyFloat_not_typeError (v : Value) (ht : truthy v = true) :
    pyFloat v ≠ Except.error PyErr.typeError := by
  cases v with
  | vStr s => unfold pyFloat; cases hp : floatParse s <;> simp [hp]
  | vBool b => simp [pyFloat]
  | vInt n => simp [pyFloat]
  | vFloat q => simp [pyFloat]
  | vNone => simp [truthy] at ht

theorem pyInt_ok_shape (v w : Value) (h : pyInt v = Except.ok w) :
    ∃ n : Int, w = Value.vInt n := by
  cases v with
  | vStr s =>
      simp only [pyInt] at h
      cases hp : intParse s <;> rw [hp] at h <;> simp at h
      exact ⟨_, h.symm⟩
  | vBool b => simp [pyInt] at h; exact ⟨_, h.symm⟩
  | vInt n => simp [pyInt] at h; exact ⟨_, h.symm⟩
  | vFloat q => simp [pyInt] at h; exact ⟨_, h.symm⟩
  | vNone => simp [pyInt] at h

theorem pyFloat_ok_shape (v w : Value) (h : pyFloat v = Except.ok w) :
    ∃ q : Rat, w = Value.vFloat q := by
  cases v with
  | vStr s =>
      simp only [pyFloat] at h
      cases hp : floatParse s <;> rw [hp] at h <;> simp at h
      exact ⟨_, h.symm⟩
  | vBool b => simp [pyFloat] at h; exact ⟨_, h.symm⟩
  | vInt n => simp [pyFloat] at h; exact ⟨_, h.symm⟩
  | vFloat q => simp [pyFloat] at h; exact ⟨_, h.symm⟩
  | vNone => simp [pyFloat] at h

theorem numClean_pyInt_shape (v : Value) :
    (∃ n : Int, numClean pyInt v = Value.vInt n) ∨ numClean pyInt v = Value.vNone := by
  by_cases ht : truthy v
  · cases hf : pyInt v with
    | ok w =>
        obtain ⟨n, rfl⟩ := pyInt_ok_shape v w hf
        exact Or.inl ⟨n, by simp [numClean, ht, hf]⟩
    | error e => exact Or.inr (by simp [numClean, ht, hf])
  · exact Or.inr (by simp [numClean, ht])

theorem numClean_pyFloat_shape (v : Value) :
    (∃ q : Rat, numClean pyFloat v = Value.vFloat q) ∨ numClean pyFloat v = Value.vNone := by
  by_cases ht : truthy v
  · cases hf : pyFloat v with
    | ok w =>
        obtain ⟨q, rfl⟩ := pyFloat_ok_shape v w hf
        exact Or.inl ⟨q, by simp [numClean, ht, hf]⟩
    | error e => exact Or.inr (by simp [numClean, ht, hf])
  · exact Or.inr (by simp [numClean, ht])

theorem numClean_pyInt_str (s : String) :
    numClean pyInt (Value.vStr s) =
      (match intParse s with
       | some n => Value.vInt n
       | none => Value.vNone) := by
  by_cases hs : s = ""
  · subst hs; rfl
  · have ht : truthy (Value.vStr s) = true := by simp [truthy, hs]
    unfold numClean pyInt
    cases hp : intParse s <;> simp [ht, hp]

theorem numClean_pyFloat_str (s : String) :
    numClean pyFloat (Value.vStr s) =
      (match floatParse s with
       | some q => Value.vFloat q
       | none => Value.vNone) := by
  by_cases hs : s = ""
  · subst hs; rfl
  · have ht : truthy (Value.vStr s) = true := by simp [truthy, hs]
    unfold numClean pyFloat
    cases hp : floatParse s <;> simp [ht, hp]

/-! ## Helper lemmas: where each configured column ends up -/

theorem clean_boolcol (cfg : CleanCfg) (r r' : Record)
    (h : cleanProcess cfg r = some [r'])
    (hn : cfg.boolCols.Nodup) (col : String) (hc : col ∈ cfg.boolCols)
    (hci : col ∉ cfg.intCols) (hcf : col ∉ cfg.floatCols)
    (v : Value) (hv : r col = some v) :
    r' col = some (boolCoerce (sentinelValue v)) := by
  obtain ⟨r₂, r₃, hb, hi, hf⟩ := cleanProcess_some cfg r r' h
  obtain ⟨v', w, hv', hg, hr2⟩ := foldStep_main boolPassStep_shape cfg.boolCols hn _ _ hb col hc
  rw [sentPass_get, hv, Option.map_some'] at hv'
  obtain ⟨rfl⟩ : v' = sentinelValue v := (Option.some.inj hv').symm
  obtain ⟨rfl⟩ : w = boolCoerce (sentinelValue v) := (Option.some.inj hg).symm
  rw [foldStep_pres (numPassStep_shape pyFloat) cfg.floatCols r₃ r' hf col hcf,
    foldStep_pres (numPassStep_shape pyInt) cfg.intCols r₂ r₃ hi col hci, hr2]

theorem clean_intcol (cfg : CleanCfg) (r r' : Record)
    (h : cleanProcess cfg r = some [r'])
    (hn : cfg.intCols.Nodup) (col : String) (hc : col ∈ cfg.intCols)
    (hcb : col ∉ cfg.boolCols) (hcf : col ∉ cfg.floatCols)
    (v : Value) (hv : r col = some v) :
    r' col = some (numClean pyInt (sentinelValue v)) := by
  obtain ⟨r₂, r₃, hb, hi, hf⟩ := cleanProcess_some cfg r r' h
  have hr2 : r₂ col = some (sentinelValue v) := by
    rw [foldStep_pres boolPassStep_shape cfg.boolCols _ r₂ hb col hcb,
      sentPass_get, hv, Option.map_some']
  obtain ⟨v', w, hv', hg, hr3⟩ := foldStep_main (numPassStep_shape pyInt) cfg.intCols hn _ _ hi col hc
  rw [hr2] at hv'
  obtain ⟨rfl⟩ : v' = sentinelValue v := (Option.some.inj hv').symm
  rw [gNum_some pyInt _ (pyInt_not_typeError _)] at hg
  obtain ⟨rfl⟩ : w = numClean pyInt (sentinelValue v) := (Option.some.inj hg).symm
  rw [foldStep_pres (numPassStep_shape pyFloat) cfg.floatCols r₃ r' hf col hcf, hr3]

theorem clean_floatcol (cfg : CleanCfg) (r r' : Record)
    (h : cleanProcess cfg r = some [r'])
    (hn : cfg.floatCols.Nodup) (col : String) (hc : col ∈ cfg.floatCols)
    (hcb : col ∉ cfg.boolCols) (hci : col ∉ cfg.intCols)
    (v : Value) (hv : r col = some v) :
    r' col = some (numClean pyFloat (sentinelValue v)) := by
  obtain ⟨r₂, r₃, hb, hi, hf⟩ := cleanProcess_some cfg r r' h
  have hr3 : r₃ col = some (sentinelValue v) := by
    rw [foldStep_pres (numPassStep_shape pyInt) cfg.intCols r₂ r₃ hi col hci,
      foldStep_pres boolPassStep_shape cfg.boolCols _ r₂ hb col hcb,
      sentPass_get, hv, Option.map_some']
  obtain ⟨v', w, hv', hg, hr4⟩ := foldStep_main (numPassStep_shape pyFloat) cfg.floatCols hn _ _ hf col hc
  rw [hr3] at hv'
  obtain ⟨rfl⟩ : v' = sentinelValue v := (Option.some.inj hv').symm
  rw [gNum_some pyFloat _ (pyFloat_not_typeError _)] at hg
  obtain ⟨rfl⟩ : w = numClean pyFloat (sentinelValue v) := (Option.some.inj hg).symm
  exact hr4

/-! ## Claim theorems -/

/-- C2: merging a joined pair yields the union of both field mappings;
a key absent from both is absent from the merge, a key the rating
record defines always carries the rating record's value (so the rating
side wins every collision), and a key the rating record does not define
carries the basic record's entry. -/
theorem merger_union_rating_wins (basic rating : Record) (k : String) :
    (mergeRecords basic rating k = none ↔ rating k = none ∧ basic k = none)
    ∧ (∀ v, rating k = some v → mergeRecords basic rating k = some v)
    ∧ (rating k = none → mergeRecords basic rating k = basic k) := by
  unfold mergeRecords
  cases hb : rating k with
  | none => simp
  | some v => simp

/-- A basic record and a rating record sharing the field `shared`, to
exhibit merge collision precedence. -/
def recCollideA : Record :=
  fun k => if k = "shared" then some (Value.vStr "fromBasic") else none

def recCollideB : Record :=
  fun k => if k = "shared" then some (Value.vStr "fromRating") else none

theorem merger_union_rating_wins_witness :
    mergeRecords recCollideA recCollideB "shared" = some (Value.vStr "fromRating") :=
  (merger_union_rating_wins recCollideA recCollideB "shared").2.1 _ rfl

/-- C4: on a normalized rating record (whose `averageRating` is a float
or absent), the rating filter passes the record unchanged iff
`averageRating` is present and at least 5.0, and otherwise silently
drops it (it never raises). -/
theorem filter_rating_predicate (r : Record)
    (hr : (∃ q : Rat, r "averageRating" = some (Value.vFloat q)) ∨
      r "averageRating" = some Value.vNone) :
    (filterRatingProcess r = some [r] ↔
      ∃ q : Rat, r "averageRating" = some (Value.vFloat q) ∧ (5 : Rat) ≤ q)
    ∧ (filterRatingProcess r = some [r] ∨ filterRatingProcess r = some []) := by
  rcases hr with ⟨q, hq⟩ | hq
  · by_cases hz : q = 0
    · subst hz
      have hfb : filterRatingProcess r = some [] := by
        simp [filterRatingProcess, hq, truthy]
      rw [hfb]
      refine ⟨⟨fun hcon => by simp at hcon, ?_⟩, Or.inr rfl⟩
      rintro ⟨p, hp, hge⟩
      rw [hq] at hp
      obtain rfl : (0 : Rat) = p := by simpa using hp
      norm_num at hge
    · by_cases hge : (5 : Rat) ≤ q
      · have hfb : filterRatingProcess r = some [r] := by
          simp [filterRatingProcess, hq, truthy, geNum, hz, hge]
        rw [hfb]
        exact ⟨⟨fun _ => ⟨q, hq, hge⟩, fun _ => rfl⟩, Or.inl rfl⟩
      · have hfb : filterRatingProcess r = some [] := by
          simp [filterRatingProcess, hq, truthy, geNum, hz, hge]
        rw [hfb]
        refine ⟨⟨fun hcon => by simp at hcon, ?_⟩, Or.inr rfl⟩
        rintro ⟨p, hp, hgep⟩
        rw [hq] at hp
        obtain rfl : q = p := by simpa using hp
        exact absurd hgep hge
  · have hfb : filterRatingProcess r = some [] := by
      simp [filterRatingProcess, hq, truthy]
    rw [hfb]
    refine ⟨⟨fun hcon => by simp at hcon, ?_⟩, Or.inr rfl⟩
    rintro ⟨p, hp, _⟩
    rw [hq] at hp
    simp at hp

/-- A normalized rating record with averageRating 7.2, for the rating
filter's passing scenario. -/
def recRatingPass : Record :=
  fun k => if k = "averageRating" then some (Value.vFloat (Rat.divInt 36 5)) else none

theorem filter_rating_predicate_witness :
    filterRatingProcess recRatingPass = some [recRatingPass] :=
  (filter_rating_predicate recRatingPass (Or.inl ⟨Rat.divInt 36 5, rfl⟩)).1.mpr
    ⟨Rat.divInt 36 5, rfl, by decide⟩

/-- C3: on a normalized basic record (`isAdult` a bool, `startYear` an
int or absent), the basic filter passes the record unchanged iff
`titleType` equals `movie`, `isAdult` is falsy and `startYear` is
present with value at least 1970, and otherwise silently drops it. -/
theorem filter_basic_predicate (r : Record) (t : Value) (a : Bool)
    (ht : r "titleType" = some t)
    (ha : r "isAdult" = some (Value.vBool a))
    (hs : (∃ n : Int, r "startYear" = some (Value.vInt n)) ∨
      r "startYear" = some Value.vNone) :
    (filterBasicProcess r = some [r] ↔
      t = Value.vStr "movie" ∧ a = false ∧
        ∃ n : Int, r "startYear" = some (Value.vInt n) ∧ (1970 : Int) ≤ n)
    ∧ (filterBasicProcess r = some [r] ∨ filterBasicProcess r = some []) := by
  by_cases htm : t = Value.vStr "movie"
  · subst htm
    cases a with
    | true =>
        have hfb : filterBasicProcess r = some [] := by
          simp [filterBasicProcess, ht, ha, truthy]
        rw [hfb]
        refine ⟨⟨fun hcon => by simp at hcon, ?_⟩, Or.inr rfl⟩
        rintro ⟨_, hfalse, _⟩
        cases hfalse
    | false =>
        rcases hs with ⟨n, hn⟩ | hn
        · by_cases hz : n = 0
          · subst hz
            have hfb : filterBasicProcess r = some [] := by
              simp [filterBasicProcess, ht, ha, hn, truthy]
            rw [hfb]
            refine ⟨⟨fun hcon => by simp at hcon, ?_⟩, Or.inr rfl⟩
            rintro ⟨_, _, m, hm, hge⟩
            rw [hn] at hm
            obtain rfl : (0 : Int) = m := by simpa using hm
            norm_num at hge
          · by_cases hge : (1970 : Int) ≤ n
            · have hge' : (1970 : Rat) ≤ (n : Rat) := by exact_mod_cast hge
              have hfb : filterBasicProcess r = some [r] := by
                simp [filterBasicProcess, ht, ha, hn, truthy, geNum, hz, hge']
              rw [hfb]
              exact ⟨⟨fun _ => ⟨rfl, rfl, n, hn, hge⟩, fun _ => rfl⟩, Or.inl rfl⟩
            · have hge' : ¬ (1970 : Rat) ≤ (n : Rat) := by exact_mod_cast hge
              have hfb : filterBasicProcess r = some [] := by
                simp [filterBasicProcess, ht, ha, hn, truthy, geNum, hz, hge']
              rw [hfb]
              refine ⟨⟨fun hcon => by simp at hcon, ?_⟩, Or.inr rfl⟩
              rintro ⟨_, _, m, hm, hgem⟩
              rw [hn] at hm
              obtain rfl : n = m := by simpa using hm
              exact absurd hgem hge
        · have hfb : filterBasicProcess r = some [] := by
            simp [filterBasicProcess, ht, ha, hn, truthy]
          rw [hfb]
          refine ⟨⟨fun hcon => by simp at hcon, ?_⟩, Or.inr rfl⟩
          rintro ⟨_, _, m, hm, _⟩
          rw [hn] at hm
          simp at hm
  · have hfb : filterBasicProcess r = some [] := by
      simp [filterBasicProcess, ht, htm]
    rw [hfb]
    refine ⟨⟨fun hcon => by simp at hcon, ?_⟩, Or.inr rfl⟩
    rintro ⟨hmov, _, _⟩
    exact absurd hmov htm

/-- A normalized basic record for the passing scenario of the basic
filter: a non-adult movie from 1985. -/
def recBasicPass : Record :=
  fun k =>
    if k = "titleType" then some (Value.vStr "movie")
    else if k = "isAdult" then some (Value.vBool false)
    else if k = "startYear" then some (Value.vInt 1985)
    else none

theorem filter_basic_predicate_witness :
    filterBasicProcess recBasicPass = some [recBasicPass] :=
  (filter_basic_predicate recBasicPass (Value.vStr "movie") false rfl rfl
      (Or.inl ⟨1985, rfl⟩)).1.mpr ⟨rfl, rfl, 1985, rfl, by norm_num⟩

/-- C5: in a successful normalization, a boolean-configured column
holding the raw string `s` comes out `False` exactly when `s` is the
literal `0`, and `True` for every other raw string — including `1`, the
empty string, arbitrary text, and even the sentinel (which has become
absent by then).  The boolean column set is duplicate-free and disjoint
from the numeric column sets, as in the pipeline's configuration. -/
theorem normalizer_bool_coercion (cfg : CleanCfg) (r r' : Record)
    (h : cleanProcess cfg r = some [r'])
    (hn : cfg.boolCols.Nodup) (col : String) (hc : col ∈ cfg.boolCols)
    (hci : col ∉ cfg.intCols) (hcf : col ∉ cfg.floatCols)
    (s : String) (hv : r col = some (Value.vStr s)) :
    r' col = some (Value.vBool (decide (s ≠ "0"))) := by
  rw [clean_boolcol cfg r r' h hn col hc hci hcf _ hv]
  have hcoerce : boolCoerce (sentinelValue (Value.vStr s)) = Value.vBool (decide (s ≠ "0")) := by
    by_cases h0 : s = "0"
    · subst h0; rfl
    · by_cases hN : s = "\\N"
      · subst hN; rfl
      · simp [sentinelValue, boolCoerce, hN, h0]
  rw [hcoerce]

def cfgBoolW : CleanCfg := { boolCols := ["isAdult"] }

def recBoolW : Record :=
  fun k => if k = "isAdult" then some (Value.vStr "foo") else none

/-- A record whose `isAdult` is the raw string `0`. -/
def recC7 : Record :=
  fun k => if k = "isAdult" then some (Value.vStr "0") else none

theorem normalizer_bool_coercion_witness :
    extractFirstO (cleanProcess cfgBoolW recBoolW) "isAdult" = some (Value.vBool true) :=
  normalizer_bool_coercion cfgBoolW recBoolW
    (extractFirstO (cleanProcess cfgBoolW recBoolW)) rfl (by decide)
    "isAdult" (by decide) (by decide) (by decide) "foo" rfl

/-- C10: a boolean-configured column whose raw value is the sentinel
backslash-N is first replaced by the absent value, and the boolean
coercion then maps that absent value to `True` (absence is treated like
any other non-`'0'` value), so the field does not stay absent. -/
theorem normalizer_bool_sentinel_true (cfg : CleanCfg) (r r' : Record)
    (h : cleanProcess cfg r = some [r'])
    (hn : cfg.boolCols.Nodup) (col : String) (hc : col ∈ cfg.boolCols)
    (hci : col ∉ cfg.intCols) (hcf : col ∉ cfg.floatCols)
    (hv : r col = some (Value.vStr "\\N")) :
    sentinelValue (Value.vStr "\\N") = Value.vNone
      ∧ r' col = some (Value.vBool true) := by
  refine ⟨rfl, ?_⟩
  rw [clean_boolcol cfg r r' h hn col hc hci hcf _ hv]
  rfl

def recSentW : Record :=
  fun k => if k = "isAdult" then some (Value.vStr "\\N") else none

theorem normalizer_bool_sentinel_true_witness :
    extractFirstO (cleanProcess cfgBoolW recSentW) "isAdult" = some (Value.vBool true) :=
  (normalizer_bool_sentinel_true cfgBoolW recSentW
      (extractFirstO (cleanProcess cfgBoolW recSentW)) rfl (by decide)
      "isAdult" (by decide) (by decide) (by decide) rfl).2

/-- C6: in a successful normalization, an integer- or float-configured
column (its column set duplicate-free and disjoint from the others)
yields the absent value when the raw value is absent or the sentinel,
and for a raw string yields the parsed number when Python numeric
parsing succeeds and the absent value when it fails (the empty string
and text such as `N/A` parse to nothing), the `ValueError` being caught
rather than propagated. -/
theorem normalizer_numeric_coercion (cfg : CleanCfg) (r r' : Record)
    (h : cleanProcess cfg r = some [r']) (col : String) (hcb : col ∉ cfg.boolCols) :
    (col ∈ cfg.intCols → cfg.intCols.Nodup → col ∉ cfg.floatCols →
      ((r col = some Value.vNone ∨ r col = some (Value.vStr "\\N")) →
        r' col = some Value.vNone) ∧
      (∀ s, r col = some (Value.vStr s) → s ≠ "\\N" →
        r' col = some (match intParse s with
          | some n => Value.vInt n
          | none => Value.vNone)))
    ∧ (col ∈ cfg.floatCols → cfg.floatCols.Nodup → col ∉ cfg.intCols →
      ((r col = some Value.vNone ∨ r col = some (Value.vStr "\\N")) →
        r' col = some Value.vNone) ∧
      (∀ s, r col = some (Value.vStr s) → s ≠ "\\N" →
        r' col = some (match floatParse s with
          | some q => Value.vFloat q
          | none => Value.vNone))) := by
  constructor
  · intro hc hn hcf
    constructor
    · rintro (hv | hv) <;> rw [clean_intcol cfg r r' h hn col hc hcb hcf _ hv] <;> rfl
    · intro s hv hsN
      rw [clean_intcol cfg r r' h hn col hc hcb hcf _ hv]
      have hsent : sentinelValue (Value.vStr s) = Value.vStr s := by
        simp [sentinelValue, hsN]
      rw [hsent, numClean_pyInt_str]
  · intro hc hn hci
    constructor
    · rintro (hv | hv) <;> rw [clean_floatcol cfg r r' h hn col hc hcb hci _ hv] <;> rfl
    · intro s hv hsN
      rw [clean_floatcol cfg r r' h hn col hc hcb hci _ hv]
      have hsent : sentinelValue (Value.vStr s) = Value.vStr s := by
        simp [sentinelValue, hsN]
      rw [hsent, numClean_pyFloat_str]

def cfgFloatW : CleanCfg := { floatCols := ["averageRating"] }

def recNAW : Record :=
  fun k => if k = "averageRating" then some (Value.vStr "N/A") else none

theorem normalizer_numeric_coercion_witness :
    extractFirstO (cleanProcess cfgFloatW recNAW) "averageRating" = some Value.vNone :=
  ((normalizer_numeric_coercion cfgFloatW recNAW
      (extractFirstO (cleanProcess cfgFloatW recNAW)) rfl
      "averageRating" (by decide)).2 (by decide) (by decide) (by decide)).2
    "N/A" rfl (by decide)

/-- C7 counterexample: normalizing is not idempotent.  On the record
with raw `isAdult = '0'` and the pipeline's boolean configuration, one
application yields `isAdult = False`, but a second application re-runs
the boolean coercion on `False`, which is not the string `'0'`, and
flips the field to `True` — so applying the normalizer twice does not
yield the same record as applying it once. -/
theorem normalizer_not_idempotent :
    extractFirstO (cleanProcess cfgBoolW recC7) "isAdult" = some (Value.vBool false)
    ∧ extractFirstO
        (cleanProcess cfgBoolW (extractFirstO (cleanProcess cfgBoolW recC7)))
        "isAdult" = some (Value.vBool true) :=
  ⟨rfl, rfl⟩

/-- C7 amended: for a configuration with no boolean columns, whose int
and float column sets are duplicate-free and disjoint, and on records
whose first normalization leaves no zero in a numeric column, a second
normalization returns the first result unchanged (absent stays absent,
parsed numbers are not re-coerced).  Boolean columns are genuinely
re-coerced (`False` flips to `True`), and a zero-valued numeric column
is re-coerced to absent, because both re-runs test the already-typed
value (`False` and `0` are falsy and differ from the string `'0'`). -/
theorem normalizer_idempotent_amended (cfg : CleanCfg) (r r₁ : Record)
    (hb : cfg.boolCols = [])
    (hni : cfg.intCols.Nodup) (hnf : cfg.floatCols.Nodup)
    (hdisj : ∀ c ∈ cfg.intCols, c ∉ cfg.floatCols)
    (h1 : cleanProcess cfg r = some [r₁])
    (hz1 : ∀ c ∈ cfg.intCols, r₁ c ≠ some (Value.vInt 0))
    (hz2 : ∀ c ∈ cfg.floatCols, r₁ c ≠ some (Value.vFloat 0)) :
    cleanProcess cfg r₁ = some [r₁] := by
  obtain ⟨r₂, r₃, hbp, hip, hfp⟩ := cleanProcess_some cfg r r₁ h1
  rw [hb] at hbp
  simp only [List.foldlM_nil] at hbp
  obtain rfl : sentPass r = r₂ := Option.some.inj hbp
  have hip' : cfg.intCols.foldlM (numPassStep pyInt) (sentPass r) = some r₃ := hip
  have hfp' : cfg.floatCols.foldlM (numPassStep pyFloat) r₃ = some r₁ := hfp
  have hint : ∀ c ∈ cfg.intCols, ∃ w, r₁ c = some w ∧
      ((∃ n : Int, w = Value.vInt n) ∨ w = Value.vNone) := by
    intro c hc
    obtain ⟨v, w, hv, hg, hr3⟩ :=
      foldStep_main (numPassStep_shape pyInt) cfg.intCols hni _ _ hip' c hc
    rw [gNum_some pyInt _ (pyInt_not_typeError _)] at hg
    obtain rfl : w = numClean pyInt v := (Option.some.inj hg).symm
    refine ⟨numClean pyInt v, ?_, numClean_pyInt_shape v⟩
    rw [foldStep_pres (numPassStep_shape pyFloat) cfg.floatCols r₃ r₁ hfp' c (hdisj c hc), hr3]
  have hflt : ∀ c ∈ cfg.floatCols, ∃ w, r₁ c = some w ∧
      ((∃ q : Rat, w = Value.vFloat q) ∨ w = Value.vNone) := by
    intro c hc
    obtain ⟨v, w, hv, hg, hr4⟩ :=
      foldStep_main (numPassStep_shape pyFloat) cfg.floatCols hnf _ _ hfp' c hc
    rw [gNum_some pyFloat _ (pyFloat_not_typeError _)] at hg
    obtain rfl : w = numClean pyFloat v := (Option.some.inj hg).symm
    exact ⟨numClean pyFloat v, hr4, numClean_pyFloat_shape v⟩
  have hfix : ∀ k, (r₁ k).map sentinelValue = r₁ k := by
    intro k
    by_cases hkI : k ∈ cfg.intCols
    · obtain ⟨w, hw, hshape⟩ := hint k hkI
      rw [hw]
      rcases hshape with ⟨n, rfl⟩ | rfl <;> rfl
    · by_cases hkF : k ∈ cfg.floatCols
      · obtain ⟨w, hw, hshape⟩ := hflt k hkF
        rw [hw]
        rcases hshape with ⟨q, rfl⟩ | rfl <;> rfl
      · have hkeep : r₁ k = sentPass r k := by
          rw [foldStep_pres (numPassStep_shape pyFloat) cfg.floatCols r₃ r₁ hfp' k hkF,
            foldStep_pres (numPassStep_shape pyInt) cfg.intCols _ r₃ hip' k hkI]
        rw [hkeep, sentPass_get, map_sent_idem]
  have hsp : sentPass r₁ = r₁ := funext hfix
  have hip2 : cfg.intCols.foldlM (numPassStep pyInt) r₁ = some r₁ := by
    apply foldStep_fix (numPassStep_shape pyInt)
    intro c hc
    obtain ⟨w, hw, hshape⟩ := hint c hc
    refine ⟨w, hw, ?_⟩
    rcases hshape with ⟨n, rfl⟩ | rfl
    · have hn0 : n ≠ 0 := by
        intro h0
        subst h0
        exact hz1 c hc hw
      simp [gNum, truthy, hn0, pyInt]
    · rfl
  have hfp2 : cfg.floatCols.foldlM (numPassStep pyFloat) r₁ = some r₁ := by
    apply foldStep_fix (numPassStep_shape pyFloat)
    intro c hc
    obtain ⟨w, hw, hshape⟩ := hflt c hc
    refine ⟨w, hw, ?_⟩
    rcases hshape with ⟨q, rfl⟩ | rfl
    · have hq0 : q ≠ 0 := by
        intro h0
        subst h0
        exact hz2 c hc hw
      simp [gNum, truthy, hq0, pyFloat]
    · rfl
  have hbp2 : cfg.boolCols.foldlM boolPassStep (sentPass r₁) = some r₁ := by
    rw [hb]
    simp only [List.foldlM_nil]
    rw [hsp]
    rfl
  exact cleanProcess_intro cfg r₁ r₁ r₁ r₁ hbp2 hip2 hfp2

def cfgIntW : CleanCfg := { intCols := ["startYear"] }

def recYearW : Record :=
  fun k => if k = "startYear" then some (Value.vStr "1985") else none

/-- The result of one normalization of `recYearW`. -/
def recYearW1 : Record := extractFirstO (cleanProcess cfgIntW recYearW)

theorem normalizer_idempotent_amended_witness :
    cleanProcess cfgIntW recYearW1 = some [recYearW1] :=
  normalizer_idempotent_amended cfgIntW recYearW recYearW1 rfl (by decide) (by decide)
    (by decide) rfl (by decide) (by decide)

/-! ## Claim C1: the joiner -/

theorem flatMap_of_map {α β γ : Type} (l : List α) (f : α → β) (g : β → List γ) :
    (l.map f).flatMap g = l.flatMap (fun a => g (f a)) := by
  induction l with
  | nil => rfl
  | cons a l ih => simp [ih]

/-- C1: the joiner visits every distinct key of either keyed input
exactly once, emits for each such key exactly the Cartesian product of
the left records carrying that key with the right records carrying it
(duplicate keys therefore expand into all combinations), and emits
nothing for a key for which either side has no record — inner-join
semantics with no pairs for one-sided keys. -/
theorem joiner_cartesian_product {K A B : Type} [DecidableEq K]
    (ms : List (K × A)) (rs : List (K × B)) :
    (cgbkKeys ms rs).Nodup
    ∧ (∀ k : K, k ∈ cgbkKeys ms rs ↔ k ∈ ms.map Prod.fst ∨ k ∈ rs.map Prod.fst)
    ∧ joinedPairs ms rs
        = (cgbkKeys ms rs).flatMap (fun k => listProd (valuesFor ms k) (valuesFor rs k))
    ∧ (∀ k : K, valuesFor ms k = [] ∨ valuesFor rs k = [] →
        joinRatings (k, (valuesFor ms k, valuesFor rs k)) = []) := by
  refine ⟨List.nodup_dedup _, fun k => by simp [cgbkKeys, List.mem_dedup], ?_, ?_⟩
  · unfold joinedPairs coGroupByKey
    rw [flatMap_of_map]
    rfl
  · intro k hk
    unfold joinRatings
    rcases hk with h | h
    · rw [h]
      rfl
    · rw [h]
      simp [listProd]

def msW1 : List (String × Nat) := [("A", 1), ("B", 2)]

def rsW1 : List (String × Nat) := [("A", 10), ("C", 30)]

theorem joiner_cartesian_product_witness :
    joinedPairs msW1 rsW1 = [(1, 10)]
    ∧ joinRatings ("B", (valuesFor msW1 "B", valuesFor rsW1 "B")) = [] :=
  ⟨by decide, (joiner_cartesian_product msW1 rsW1).2.2.2 "B" (Or.inr (by decide))⟩

/-! ## Helper lemmas: the csv parser -/

theorem splitLinesAux_single (cs : List Char) (h : ∀ c ∈ cs, isLineBreak c = false) :
    ∀ acc, (acc ≠ [] ∨ cs ≠ []) → splitLinesAux false cs acc = [acc.reverse ++ cs] := by
  induction cs with
  | nil =>
      intro acc hne
      have hacc : acc ≠ [] := by
        rcases hne with hne | hne
        · exact hne
        · exact absurd rfl hne
      cases acc with
      | nil => exact absurd rfl hacc
      | cons a as => simp [splitLinesAux]
  | cons c cs ih =>
      intro acc _
      have hc : isLineBreak c = false := h c (List.mem_cons_self c cs)
      have hcs : ∀ x ∈ cs, isLineBreak x = false :=
        fun x hx => h x (List.mem_cons_of_mem _ hx)
      have hcr : c ≠ '\r' := by
        intro hceq
        subst hceq
        simp [isLineBreak] at hc
      rw [show splitLinesAux false (c :: cs) acc = splitLinesAux false cs (c :: acc) from by
        simp [splitLinesAux, hcr, hc]]
      rw [ih hcs (c :: acc) (Or.inl (by simp))]
      simp

theorem parseCsvProcess_single (cols : List String) (s : String)
    (hne : s ≠ "") (hnl : ∀ c ∈ s.data, isLineBreak c = false) :
    parseCsvProcess cols s = [dictReaderRow cols (csvFields s)] := by
  have hd : s.data ≠ [] := by
    intro h
    apply hne
    obtain ⟨cs⟩ := s
    have h' : cs = [] := h
    subst h'
    rfl
  have hsp : pySplitlines s = [s] := by
    unfold pySplitlines
    rw [splitLinesAux_single s.data hnl [] (Or.inr hd)]
    rfl
  unfold parseCsvProcess
  rw [hsp]
  simp [List.filterMap_cons, hne]

theorem csvAux_noquote (cs : List Char) (h : ∀ c ∈ cs, c ≠ '"') :
    (∀ acc, csvAux CsvState.inField acc cs = splitTabAux cs acc)
    ∧ csvAux CsvState.startField [] cs = splitTabAux cs [] := by
  induction cs with
  | nil => exact ⟨fun acc => rfl, rfl⟩
  | cons c cs ih =>
      have hc : c ≠ '"' := h c (List.mem_cons_self c cs)
      have hcs : ∀ x ∈ cs, x ≠ '"' := fun x hx => h x (List.mem_cons_of_mem _ hx)
      obtain ⟨ihIn, ihStart⟩ := ih hcs
      constructor
      · intro acc
        by_cases ht : c = '\t'
        · simp [csvAux, splitTabAux, ht, ihStart]
        · simp [csvAux, splitTabAux, ht, ihIn]
      · by_cases ht : c = '\t'
        · simp [csvAux, splitTabAux, hc, ht, ihStart]
        · simp [csvAux, splitTabAux, hc, ht, ihIn]

theorem csvFields_noquote (s : String) (h : ∀ c ∈ s.data, c ≠ '"') :
    csvFields s = (splitTabAux s.data []).map (fun cs => String.mk cs) := by
  unfold csvFields
  rw [(csvAux_noquote s.data h).2]

theorem splitTabAux_ne_nil (cs acc : List Char) : splitTabAux cs acc ≠ [] := by
  induction cs generalizing acc with
  | nil => simp [splitTabAux]
  | cons c cs ih =>
      by_cases ht : c = '\t'
      · simp [splitTabAux, ht]
      · simpa [splitTabAux, ht] using ih (c :: acc)

theorem joinTab_cons (f : List Char) (fs : List (List Char)) (h : fs ≠ []) :
    joinTab (f :: fs) = f ++ '\t' :: joinTab fs := by
  cases fs with
  | nil => exact absurd rfl h
  | cons g gs => rfl

theorem joinTab_splitTabAux (cs : List Char) :
    ∀ acc, joinTab (splitTabAux cs acc) = acc.reverse ++ cs := by
  induction cs with
  | nil => intro acc; simp [splitTabAux, joinTab]
  | cons c cs ih =>
      intro acc
      by_cases ht : c = '\t'
      · subst ht
        rw [show splitTabAux ('\t' :: cs) acc = acc.reverse :: splitTabAux cs [] from rfl,
          joinTab_cons _ _ (splitTabAux_ne_nil cs []), ih []]
        simp
      · rw [show splitTabAux (c :: cs) acc = splitTabAux cs (c :: acc) from by
          simp [splitTabAux, ht]]
        rw [ih (c :: acc)]
        simp

/-! ## Helper lemmas: dict lookups -/

theorem dictOfPairs_not_mem (l : List (String × Value)) (k : String)
    (h : k ∉ l.map Prod.fst) : dictOfPairs l k = none := by
  induction l with
  | nil => rfl
  | cons p l ih =>
      obtain ⟨k₀, v₀⟩ := p
      simp only [List.map_cons, List.mem_cons, not_or] at h
      simp [dictOfPairs, ih h.2, h.1]

theorem dictOfPairs_cons_ne (k₀ : String) (v₀ : Value) (ps : List (String × Value))
    (k : String) (hne : k ≠ k₀) :
    dictOfPairs ((k₀, v₀) :: ps) k = dictOfPairs ps k := by
  cases hd : dictOfPairs ps k <;> simp [dictOfPairs, hd, hne]

theorem dictOfPairs_append (l₁ l₂ : List (String × Value)) (k : String) :
    dictOfPairs (l₁ ++ l₂) k =
      (match dictOfPairs l₂ k with
       | some v => some v
       | none => dictOfPairs l₁ k) := by
  induction l₁ with
  | nil =>
      simp only [List.nil_append]
      cases dictOfPairs l₂ k <;> rfl
  | cons p l ih =>
      obtain ⟨k₀, v₀⟩ := p
      simp only [List.cons_append]
      rw [show dictOfPairs ((k₀, v₀) :: (l ++ l₂)) k =
          (match dictOfPairs (l ++ l₂) k with
           | some v => some v
           | none => if k = k₀ then some v₀ else none) from rfl]
      rw [ih]
      cases hd₂ : dictOfPairs l₂ k <;> cases hd₁ : dictOfPairs l k <;>
        simp [dictOfPairs, hd₁, hd₂]

theorem dictOfPairs_pad (pads : List String) (k : String) (hk : k ∈ pads)
    (hnd : pads.Nodup) :
    dictOfPairs (pads.map (fun c => (c, Value.vNone))) k = some Value.vNone := by
  induction pads with
  | nil => cases hk
  | cons d ds ih =>
      simp only [List.map_cons]
      rcases List.mem_cons.mp hk with rfl | hkds
      · have hkn : k ∉ ds := (List.nodup_cons.mp hnd).1
        have hnone : dictOfPairs (ds.map (fun c => (c, Value.vNone))) k = none := by
          apply dictOfPairs_not_mem
          simpa using hkn
        simp [dictOfPairs, hnone]
      · rw [dictOfPairs_cons_ne]
        · exact ih hkds (List.nodup_cons.mp hnd).2
        · intro hkd
          subst hkd
          exact (List.nodup_cons.mp hnd).1 hkds

theorem zipDict_map_get (cols fields : List String) (hn : cols.Nodup)
    (hl : fields.length = cols.length) :
    cols.map (fun c => getRawStr (dictOfPairs (cols.zip (fields.map Value.vStr)) c))
      = fields := by
  induction cols generalizing fields with
  | nil =>
      cases fields with
      | nil => rfl
      | cons f fs => simp at hl
  | cons c cs ih =>
      cases fields with
      | nil => simp at hl
      | cons f fs =>
          have hl' : fs.length = cs.length := by simpa using hl
          have hcn : c ∉ cs := (List.nodup_cons.mp hn).1
          have hn' : cs.Nodup := (List.nodup_cons.mp hn).2
          have hkeys : (cs.zip (fs.map Value.vStr)).map Prod.fst = cs := by
            apply List.map_fst_zip
            simp [hl']
          simp only [List.map_cons, List.zip_cons_cons, List.map_cons]
          have hhead :
              getRawStr (dictOfPairs ((c, Value.vStr f) :: cs.zip (fs.map Value.vStr)) c)
                = f := by
            have hnone : dictOfPairs (cs.zip (fs.map Value.vStr)) c = none := by
              apply dictOfPairs_not_mem
              rw [hkeys]
              exact hcn
            simp [dictOfPairs, hnone, getRawStr]
          have hcong : ∀ c' ∈ cs,
              getRawStr (dictOfPairs ((c, Value.vStr f) :: cs.zip (fs.map Value.vStr)) c')
                = getRawStr (dictOfPairs (cs.zip (fs.map Value.vStr)) c') := by
            intro c' hc'
            rw [dictOfPairs_cons_ne]
            intro hcc
            subst hcc
            exact hcn hc'
          rw [hhead, List.map_congr_left hcong, ih fs hn' hl']

theorem dictReaderRow_full (cols fields : List String) (hl : fields.length = cols.length) :
    dictReaderRow cols fields = dictOfPairs (cols.zip (fields.map Value.vStr)) := by
  unfold dictReaderRow
  rw [hl, List.drop_length]
  simp

/-- C8 counterexample: a raw line with 2 tab-delimited fields fed to
the 3-column ratings schema is not reported as any error — no
`MalformedRecordError` exists anywhere in the code — and the parser
still silently yields one ordinary record, padding the missing
`numVotes` column with the absent value (`DictReader`'s `restval`). -/
theorem parser_no_malformed_error :
    countTabFields "t1\t7.2" ≠ columns_ratings.length
    ∧ (parseCsvProcess columns_ratings "t1\t7.2").length = 1
    ∧ extractFirst (parseCsvProcess columns_ratings "t1\t7.2") "tconst"
        = some (Value.vStr "t1")
    ∧ extractFirst (parseCsvProcess columns_ratings "t1\t7.2") "averageRating"
        = some (Value.vStr "7.2")
    ∧ extractFirst (parseCsvProcess columns_ratings "t1\t7.2") "numVotes"
        = some Value.vNone :=
  ⟨by decide, rfl, rfl, rfl, rfl⟩

/-- C8 amended: for a non-empty single physical line (no line-boundary
character, no quote), a wrong tab-delimited field count does not crash
the pipeline, but no `MalformedRecordError` is raised either: the
parser emits exactly one ordinary record, silently filling schema
columns beyond the line's field count with the absent value.  (Surplus
fields beyond the schema go under the reader's non-string rest key,
which the `String`-keyed model drops.)  The skip-vs-abort decision the
spec assigns to the caller never arises because no failure is
signalled. -/
theorem parser_malformed_amended (cols : List String) (s : String)
    (hn : cols.Nodup) (hne : s ≠ "")
    (hclean : ∀ c ∈ s.data, isLineBreak c = false ∧ c ≠ '"') :
    (parseCsvProcess cols s).length = 1
    ∧ ∀ c ∈ cols.drop (countTabFields s),
        extractFirst (parseCsvProcess cols s) c = some Value.vNone := by
  rw [parseCsvProcess_single cols s hne (fun c hc => (hclean c hc).1)]
  refine ⟨rfl, ?_⟩
  intro c hc
  show dictReaderRow cols (csvFields s) c = some Value.vNone
  have hfields := csvFields_noquote s (fun c hc => (hclean c hc).2)
  have hflen : (csvFields s).length = countTabFields s := by
    rw [hfields, List.length_map]
    rfl
  unfold dictReaderRow
  rw [dictOfPairs_append]
  have hpad :
      dictOfPairs ((cols.drop (csvFields s).length).map (fun c => (c, Value.vNone))) c
        = some Value.vNone := by
    apply dictOfPairs_pad
    · rw [hflen]
      exact hc
    · exact hn.sublist (List.drop_sublist _ _)
  rw [hpad]

theorem parser_malformed_amended_witness :
    (parseCsvProcess columns_ratings "t1\t7.2").length = 1
    ∧ extractFirst (parseCsvProcess columns_ratings "t1\t7.2") "numVotes"
        = some Value.vNone :=
  ⟨(parser_malformed_amended columns_ratings "t1\t7.2"
      (by decide) (by decide) (by decide)).1,
   (parser_malformed_amended columns_ratings "t1\t7.2"
      (by decide) (by decide) (by decide)).2 "numVotes" (by decide)⟩

/-- A line with the ratings schema's field count whose first field is
quoted. -/
def lineC9 : String := "\"t1\"\t7.2\t33"

/-- C9 counterexample: the csv reader strips the quotes of a quoted
field, so on a line with exactly the expected tab-delimited field count
whose first field is `"t1"` (with quotes), parsing and re-joining in
schema order yields `t1\t7.2\t33`, which is not the original line —
the round-trip fails. -/
theorem parser_roundtrip_fails_on_quotes :
    countTabFields lineC9 = columns_ratings.length
    ∧ (parseCsvProcess columns_ratings lineC9).length = 1
    ∧ rejoinRecord columns_ratings
        (extractFirst (parseCsvProcess columns_ratings lineC9)) = "t1\t7.2\t33"
    ∧ ("t1\t7.2\t33" : String) ≠ lineC9 :=
  ⟨by decide, rfl, by decide, by decide⟩

/-- C9 amended: for every non-empty raw line containing no quote
character and no line-boundary character, whose tab-delimited field
count equals the schema's column count over a duplicate-free schema,
parsing the line and re-joining the record's field values with the tab
delimiter in schema order reproduces the original line exactly. -/
theorem parser_roundtrip_amended (cols : List String) (s : String)
    (hn : cols.Nodup) (hne : s ≠ "")
    (hclean : ∀ c ∈ s.data, isLineBreak c = false ∧ c ≠ '"')
    (hcount : countTabFields s = cols.length) :
    (parseCsvProcess cols s).length = 1
    ∧ rejoinRecord cols (extractFirst (parseCsvProcess cols s)) = s := by
  rw [parseCsvProcess_single cols s hne (fun c hc => (hclean c hc).1)]
  refine ⟨rfl, ?_⟩
  show rejoinRecord cols (dictReaderRow cols (csvFields s)) = s
  have hfields := csvFields_noquote s (fun c hc => (hclean c hc).2)
  have hflen : (csvFields s).length = cols.length := by
    rw [hfields, List.length_map, ← hcount]
    rfl
  rw [dictReaderRow_full cols (csvFields s) hflen]
  unfold rejoinRecord
  have hmap := zipDict_map_get cols (csvFields s) hn hflen
  have hcomp :
      cols.map (fun c =>
        (getRawStr (dictOfPairs (cols.zip ((csvFields s).map Value.vStr)) c)).data)
      = (cols.map (fun c =>
          getRawStr (dictOfPairs (cols.zip ((csvFields s).map Value.vStr)) c))).map
            String.data := by
    rw [List.map_map]
    rfl
  rw [hcomp, hmap, hfields, List.map_map]
  have hid : (splitTabAux s.data []).map (String.data ∘ fun cs => String.mk cs)
      = splitTabAux s.data [] := by
    rw [show (String.data ∘ fun cs => String.mk cs) = id from rfl, List.map_id]
  rw [hid, joinTab_splitTabAux s.data []]
  obtain ⟨cs⟩ := s
  rfl

theorem parser_roundtrip_amended_witness :
    (parseCsvProcess columns_ratings "t1\t7.2\t33").length = 1
    ∧ rejoinRecord columns_ratings
        (extractFirst (parseCsvProcess columns_ratings "t1\t7.2\t33")) = "t1\t7.2\t33" :=
  parser_roundtrip_amended columns_ratings "t1\t7.2\t33"
    (by decide) (by decide) (by decide) (by decide)

end MoviePipeline
